import Mathlib

/-!
# Verification of the BaatCheet secret-upload scripts

Shallow embedding of `src/push_secrets_to_hf.py` (the remote-call variant)
and `src/upload_secrets.py` (the manual-instructions variant).

Strings are modelled as `List Char`.  Python string operations used by the
scripts (`str.strip`, `str.strip(chars)`, `str.startswith`, `str.split('=', 1)`,
slicing) are modelled by explicit functions below, each faithful to CPython
semantics on the character data the scripts handle.
-/

set_option maxRecDepth 4000

namespace BaatCheet

/-- Strings of the scripts, as lists of characters. -/
abbrev Str := List Char

/-- The double-quote character `"` (code point 34). -/
def dquote : Char := Char.ofNat 34

/-- The single-quote character (code point 39). -/
def squote : Char := Char.ofNat 39

/-- Whitespace as stripped by Python `str.strip()` with no argument
(space, tab, newline, carriage return, vertical tab, form feed; the
scripts only ever meet ASCII input). -/
def isPySpace (c : Char) : Bool :=
  c = Char.ofNat 32 || c = Char.ofNat 9 || c = Char.ofNat 10 ||
  c = Char.ofNat 13 || c = Char.ofNat 11 || c = Char.ofNat 12

/-- Remove trailing characters satisfying `p` (right half of a Python strip). -/
def rstripP (p : Char → Bool) (s : Str) : Str :=
  (s.reverse.dropWhile p).reverse

/-- Remove leading and trailing characters satisfying `p`
(Python `str.strip` with the character class `p`). -/
def stripP (p : Char → Bool) (s : Str) : Str :=
  rstripP p (s.dropWhile p)

/-- Python `line.strip()`. -/
def pyStrip (s : Str) : Str := stripP isPySpace s

/-- Python `s.strip(c)` for a single character `c`: ALL leading and trailing
occurrences of `c` are removed, matched or not. -/
def stripChar (c : Char) (s : Str) : Str := stripP (fun x => x = c) s

/-- `value.strip('"').strip("'")` from both scripts (line 24 of
`push_secrets_to_hf.py`, line 16 of `upload_secrets.py`). -/
def stripQuotes (s : Str) : Str := stripChar squote (stripChar dquote s)

/-- Python `s.startswith(p)`. -/
def pyStartsWith (p s : Str) : Bool := p.isPrefixOf s

/-- One line of the `.env` file through the syntactic part of the loop body:
strip the line; skip it when it is empty, starts with `#`, or has no `=`;
otherwise split on the first `=` and strip quotes from the value.
(`push_secrets_to_hf.py` lines 21-24, `upload_secrets.py` lines 13-16.) -/
def parseRaw (raw : Str) : Option (Str × Str) :=
  let line := pyStrip raw
  if line.isEmpty then none
  else if pyStartsWith [Char.ofNat 35] line then none
  else if Char.ofNat 61 ∈ line then
    some (line.takeWhile (fun c => c ≠ Char.ofNat 61),
          stripQuotes ((line.dropWhile (fun c => c ≠ Char.ofNat 61)).tail))
  else none

/-- The placeholder filter: keep a value only when it is non-empty and starts
with neither `your` nor `sk_test` (`push_secrets_to_hf.py` line 25,
`upload_secrets.py` line 17). -/
def placeholderOk (v : Str) : Bool :=
  !v.isEmpty && !pyStartsWith "your".data v && !pyStartsWith "sk_test".data v

/-- The record a line contributes to the `secrets` dict, if any. -/
def entryOf (raw : Str) : Option (Str × Str) :=
  match parseRaw raw with
  | some (k, v) => if placeholderOk v then some (k, v) else none
  | none => none

/-- Python dict assignment `d[k] = v`: overwrite in place when the key is
present (keeping its position), otherwise append at the end. -/
def dictInsert (d : List (Str × Str)) (k v : Str) : List (Str × Str) :=
  match d with
  | [] => [(k, v)]
  | (k0, v0) :: rest =>
    if k0 = k then (k0, v) :: rest else (k0, v0) :: dictInsert rest k v

/-- Python dict lookup `d[k]` as an option. -/
def lookup (d : List (Str × Str)) (k : Str) : Option Str :=
  match d with
  | [] => none
  | (k0, v0) :: rest => if k0 = k then some v0 else lookup rest k

/-- The keys of a dict, in insertion order. -/
def keys (d : List (Str × Str)) : List Str := d.map Prod.fst

/-- One iteration of the `secrets`-building loop. -/
def buildStep (acc : List (Str × Str)) (raw : Str) : List (Str × Str) :=
  match entryOf raw with
  | some (k, v) => dictInsert acc k v
  | none => acc

/-- The `secrets` dict built from the lines of the `.env` file
(`push_secrets_to_hf.py` lines 18-26, `upload_secrets.py` lines 10-18). -/
def buildSecrets (lines : List Str) : List (Str × Str) :=
  lines.foldl buildStep []

/-- `important_keys` of `push_secrets_to_hf.py` (lines 29-31). -/
def importantKeysPush : List Str := ["JWT_SECRET".data]

/-- `important_keys` of `upload_secrets.py` (lines 23-27). -/
def importantKeysUpload : List Str :=
  ["DATABASE_URL".data, "JWT_SECRET".data, "NODE_ENV".data,
   "CLERK_PUBLISHABLE_KEY".data, "CLERK_SECRET_KEY".data,
   "DEFAULT_MODEL".data, "MAX_CONTEXT_MESSAGES".data, "MAX_TOKENS".data]

/-- `api_prefixes`, identical in both scripts. -/
def apiPrefixes : List Str :=
  ["GROQ_API_KEY".data, "DEEPSEEK_API_KEY".data, "OPENROUTER_API_KEY".data,
   "HUGGINGFACE_API_KEY".data, "GEMINI_API_KEY".data, "OCR_SPACE_API_KEY".data,
   "BRAVE_SEARCH_KEY".data, "SERPAPI_KEY".data, "ELEVENLABS_API_KEY".data]

/-- The allow-list test of the filter loop: `key in important_keys`, else try
each prefix with `key.startswith(prefix)` (the `break` is immaterial). -/
def keepKey (important : List Str) (k : Str) : Bool :=
  if k ∈ important then true
  else apiPrefixes.any (fun p => pyStartsWith p k)

/-- The `filtered_secrets` loop (`push_secrets_to_hf.py` lines 40-48,
`upload_secrets.py` lines 34-42), literally: a fresh dict grown by
assignment over `secrets.items()`. -/
def filteredSecrets (important : List Str) (d : List (Str × Str)) :
    List (Str × Str) :=
  d.foldl (fun acc kv => if keepKey important kv.1 then dictInsert acc kv.1 kv.2 else acc) []

/-- The retained records of the remote-call variant. -/
def filteredPush (lines : List Str) : List (Str × Str) :=
  filteredSecrets importantKeysPush (buildSecrets lines)

/-- The retained records of the manual-instructions variant. -/
def filteredUpload (lines : List Str) : List (Str × Str) :=
  filteredSecrets importantKeysUpload (buildSecrets lines)

/-- `value[:6] + '...' + value[-4:] if len(value) > 14 else value[:4] + '...'`
(`push_secrets_to_hf.py` line 84).  Python `v[:n]` is `take n`; `v[-4:]` is
`drop (length - 4)` (also when the string is shorter than 4, by truncated
subtraction, matching Python). -/
def maskRemote (v : Str) : Str :=
  if 14 < v.length then v.take 6 ++ "...".data ++ v.drop (v.length - 4)
  else v.take 4 ++ "...".data

/-- `val[:8] + '...' + val[-4:] if len(val) > 16 else val[:4] + '...'`
(`upload_secrets.py` line 48). -/
def maskManual (v : Str) : Str :=
  if 16 < v.length then v.take 8 ++ "...".data ++ v.drop (v.length - 4)
  else v.take 4 ++ "...".data

/-- Lexicographic comparison of strings by code point, as Python `<`. -/
def lexLt : Str → Str → Bool
  | [], [] => false
  | [], _ :: _ => true
  | _ :: _, [] => false
  | a :: as, b :: bs => if a < b then true else if b < a then false else lexLt as bs

/-- Python tuple comparison on `(key, value)` pairs, as used by
`sorted(filtered_secrets.items())`. -/
def pairLe (x y : Str × Str) : Bool :=
  lexLt x.1 y.1 || (x.1 == y.1 && (lexLt x.2 y.2 || x.2 == y.2))

/-- Insertion step of the sort model. -/
def insertSorted (x : Str × Str) : List (Str × Str) → List (Str × Str)
  | [] => [x]
  | y :: ys => if pairLe x y then x :: y :: ys else y :: insertSorted x ys

/-- Model of Python `sorted` on the item list. -/
def sortPairs (l : List (Str × Str)) : List (Str × Str) :=
  l.foldr insertSorted []

/-- The success line `✅ {key}: {masked}` (`push_secrets_to_hf.py` line 85). -/
def okLine (k v : Str) : Str :=
  "✅ ".data ++ k ++ ": ".data ++ maskRemote v

/-- The failure line `❌ {key}: Failed - {str(e)[:50]}`
(`push_secrets_to_hf.py` line 88): the error text is truncated to its
first 50 characters. -/
def failLine (k e : Str) : Str :=
  "❌ ".data ++ k ++ ": Failed - ".data ++ e.take 50

/-- One iteration of the upload loop.  A remote call is modelled by
`call : key → value → Option error`: `none` is a successful
`add_space_secret`, `some e` an exception with message `e`.  The
accumulator carries (success count, failure count, printed lines). -/
def uploadStep (call : Str → Str → Option Str)
    (acc : Nat × Nat × List Str) (kv : Str × Str) : Nat × Nat × List Str :=
  match call kv.1 kv.2 with
  | none => (acc.1 + 1, acc.2.1, acc.2.2 ++ [okLine kv.1 kv.2])
  | some e => (acc.1, acc.2.1 + 1, acc.2.2 ++ [failLine kv.1 e])

/-- The upload loop over the retained records
(`push_secrets_to_hf.py` lines 74-89). -/
def uploadLoop (call : Str → Str → Option Str) (items : List (Str × Str)) :
    Nat × Nat × List Str :=
  items.foldl (uploadStep call) (0, 0, [])

/-- The summary line
`f"\nDone! Uploaded {success_count} secrets, {fail_count} failed."`
(`push_secrets_to_hf.py` line 92). -/
def summaryLine (s f : Nat) : Str :=
  ("\nDone! Uploaded " ++ toString s ++ " secrets, " ++ toString f ++ " failed.").data

/-- Observable outcome of one run of the remote-call variant. -/
structure RunResult where
  exitCode : Nat
  calls : List (Str × Str)
  successCount : Nat
  failCount : Nat
  outputLines : List Str
  deriving DecidableEq, Repr

/-- The remote-call script end to end (`push_secrets_to_hf.py` lines 18-92):
token resolution (`os.environ.get('HF_TOKEN')`, falling back to
`input().strip()`, `sys.exit(1)` when still empty), then one
`add_space_secret` call per retained record in sorted order. -/
def runPush (lines : List Str) (envTok : Option Str) (promptInput : Str)
    (call : Str → Str → Option Str) : RunResult :=
  let items := sortPairs (filteredPush lines)
  let tok0 := match envTok with | some t => t | none => []
  let tok := if tok0.isEmpty then pyStrip promptInput else tok0
  if tok.isEmpty then
    { exitCode := 1, calls := [], successCount := 0, failCount := 0, outputLines := [] }
  else
    let r := uploadLoop call items
    { exitCode := 0, calls := items, successCount := r.1, failCount := r.2.1,
      outputLines := r.2.2 }

/-- Concrete batch for end-to-end scenario 5: three retained records. -/
def scenarioItems : List (Str × Str) :=
  [("GROQ_API_KEY_1".data, "sk_live_abc123xyz789".data),
   ("GROQ_API_KEY_2".data, "sk_live_def456uvw012".data),
   ("JWT_SECRET".data, "supersecretjwtvalue1".data)]

/-- Concrete remote behaviour for scenario 5: the middle key fails with a
message longer than 50 characters, the other two succeed. -/
def scenarioCall (k : Str) (_v : Str) : Option Str :=
  if k = "GROQ_API_KEY_2".data then
    some "Connection error: remote endpoint refused the request after handshake".data
  else none

/-! ## Dictionary lemmas -/

theorem keys_cons (k v : Str) (d : List (Str × Str)) :
    keys ((k, v) :: d) = k :: keys d := rfl

theorem dictInsert_of_not_mem (d : List (Str × Str)) (k v : Str)
    (h : k ∉ keys d) : dictInsert d k v = d ++ [(k, v)] := by
  induction d with
  | nil => rfl
  | cons kv rest ih =>
    obtain ⟨k0, v0⟩ := kv
    rw [keys_cons, List.mem_cons] at h
    push_neg at h
    rw [dictInsert, if_neg (fun hk => h.1 hk.symm), ih h.2, List.cons_append]

theorem keys_dictInsert (d : List (Str × Str)) (k v : Str) :
    keys (dictInsert d k v) =
      if k ∈ keys d then keys d else keys d ++ [k] := by
  induction d with
  | nil => simp [dictInsert, keys]
  | cons kv rest ih =>
    obtain ⟨k0, v0⟩ := kv
    rw [dictInsert]
    by_cases h0 : k0 = k
    · subst h0
      rw [if_pos rfl, keys_cons, keys_cons, if_pos (List.mem_cons_self _ _)]
    · rw [if_neg h0, keys_cons, keys_cons, ih]
      by_cases hm : k ∈ keys rest
      · rw [if_pos hm, if_pos (List.mem_cons_of_mem _ hm)]
      · rw [if_neg hm, if_neg (by
          rw [List.mem_cons]
          push_neg
          exact ⟨fun hk => h0 hk.symm, hm⟩), List.cons_append]

theorem nodup_keys_dictInsert (d : List (Str × Str)) (k v : Str)
    (h : (keys d).Nodup) : (keys (dictInsert d k v)).Nodup := by
  rw [keys_dictInsert]
  by_cases hm : k ∈ keys d
  · rwa [if_pos hm]
  · rw [if_neg hm]
    exact List.Nodup.append h (List.nodup_singleton k) (by simpa using hm)

theorem lookup_dictInsert (d : List (Str × Str)) (k v key : Str) :
    lookup (dictInsert d k v) key =
      if key = k then some v else lookup d key := by
  induction d with
  | nil =>
    by_cases h : key = k
    · subst h; simp [dictInsert, lookup]
    · simp only [dictInsert, lookup]
      rw [if_neg (fun hk : k = key => h hk.symm), if_neg h]
  | cons kv rest ih =>
    obtain ⟨k0, v0⟩ := kv
    rw [dictInsert]
    by_cases h0 : k0 = k
    · subst h0
      by_cases h : key = k0
      · subst h; simp [lookup]
      · simp only [lookup]
        rw [if_neg h, if_neg (fun hk : k0 = key => h hk.symm),
            if_neg (fun hk : k0 = key => h hk.symm)]
    · rw [if_neg h0]
      by_cases h : key = k0
      · subst h
        simp [lookup, h0]
      · simp only [lookup]
        rw [if_neg (fun hk : k0 = key => h hk.symm), ih,
            if_neg (fun hk : k0 = key => h hk.symm)]

/-! ## Fold lemmas for the two pipeline loops -/

theorem build_eq_entries_fold (lines : List Str) :
    ∀ acc, lines.foldl buildStep acc =
      (lines.filterMap entryOf).foldl (fun d kv => dictInsert d kv.1 kv.2) acc := by
  induction lines with
  | nil => intro acc; rfl
  | cons raw rest ih =>
    intro acc
    rw [List.foldl_cons, List.filterMap_cons]
    rcases h : entryOf raw with _ | kv
    · rw [ih, buildStep, h]
    · rw [List.foldl_cons, ih, buildStep, h]

theorem nodup_keys_entries_fold (ents : List (Str × Str)) :
    ∀ acc, (keys acc).Nodup →
      (keys (ents.foldl (fun d kv => dictInsert d kv.1 kv.2) acc)).Nodup := by
  induction ents with
  | nil => intro acc h; exact h
  | cons kv rest ih =>
    intro acc h
    rw [List.foldl_cons]
    exact ih _ (nodup_keys_dictInsert _ _ _ h)

theorem nodup_keys_buildSecrets (lines : List Str) :
    (keys (buildSecrets lines)).Nodup := by
  rw [buildSecrets, build_eq_entries_fold]
  exact nodup_keys_entries_fold _ [] List.nodup_nil

theorem lookup_entries_fold (key : Str) (ents : List (Str × Str)) : ∀ acc,
    lookup (ents.foldl (fun d kv => dictInsert d kv.1 kv.2) acc) key =
      ((ents.filter (fun kv => kv.1 == key)).getLast?.map Prod.snd).orElse
        (fun _ => lookup acc key) := by
  induction ents using List.reverseRecOn with
  | nil => intro acc; simp
  | append_singleton rest e ih =>
    intro acc
    rw [List.foldl_append, List.foldl_cons, List.foldl_nil, lookup_dictInsert,
        List.filter_append]
    by_cases h : e.1 = key
    · rw [if_pos h.symm]
      have : List.filter (fun kv => kv.1 == key) [e] = [e] := by
        simp [List.filter, h]
      rw [this, List.getLast?_concat]
      simp
    · rw [if_neg (fun hk => h hk.symm)]
      have hb : (e.1 == key) = false := beq_eq_false_iff_ne.mpr h
      have : List.filter (fun kv => kv.1 == key) [e] = [] := by
        simp [List.filter, hb]
      rw [this, List.append_nil, ih]

theorem filterFold_eq (keep : Str → Bool) (d : List (Str × Str)) : ∀ acc,
    (keys d).Nodup → (∀ k, k ∈ keys d → k ∉ keys acc) →
    d.foldl (fun a kv => if keep kv.1 then dictInsert a kv.1 kv.2 else a) acc
      = acc ++ d.filter (fun kv => keep kv.1) := by
  induction d with
  | nil => intro acc _ _; simp
  | cons kv rest ih =>
    intro acc hnd hdisj
    obtain ⟨k0, v0⟩ := kv
    rw [keys_cons, List.nodup_cons] at hnd
    rw [List.foldl_cons]
    by_cases hk : keep k0 = true
    · rw [if_pos hk]
      rw [dictInsert_of_not_mem _ _ _ (hdisj k0 (by rw [keys_cons]; exact List.mem_cons_self _ _))]
      rw [ih _ hnd.2 (by
        intro k hk1 hk2
        rw [keys] at hk2
        rw [List.map_append] at hk2
        rcases List.mem_append.1 hk2 with h1 | h1
        · exact hdisj k (by rw [keys_cons]; exact List.mem_cons_of_mem _ hk1) h1
        · simp only [List.map_cons, List.map_nil, List.mem_singleton] at h1
          exact hnd.1 (h1 ▸ hk1))]
      simp [List.filter_cons, hk]
    · have hkf : keep k0 = false := by simpa using hk
      rw [if_neg hk,
          ih _ hnd.2 (fun k h1 h2 =>
            hdisj k (by rw [keys_cons]; exact List.mem_cons_of_mem _ h1) h2)]
      simp [List.filter_cons, hkf]

theorem filteredSecrets_eq_filter (important : List Str) (d : List (Str × Str))
    (h : (keys d).Nodup) :
    filteredSecrets important d = d.filter (fun kv => keepKey important kv.1) := by
  rw [filteredSecrets, filterFold_eq _ _ [] h (by intro k _ hk; simp [keys] at hk)]
  rw [List.nil_append]

/-! ## Characterisation of Python `strip(c)` -/

theorem rstripP_eq_rdropWhile (p : Char → Bool) (s : Str) :
    rstripP p s = List.rdropWhile p s := rfl

theorem rdropWhile_append_rtakeWhile (p : Char → Bool) (t : Str) :
    List.rdropWhile p t ++ List.rtakeWhile p t = t := by
  rw [List.rdropWhile, List.rtakeWhile, ← List.reverse_append,
      List.takeWhile_append_dropWhile, List.reverse_reverse]

theorem stripP_eq (p : Char → Bool) (s : Str) :
    stripP p s = List.rdropWhile p (s.dropWhile p) := rfl

theorem stripChar_decomp (c : Char) (s : Str) :
    ∃ a b : Nat, s = List.replicate a c ++ stripChar c s ++ List.replicate b c := by
  set p : Char → Bool := fun x => decide (x = c) with hp
  set t : Str := s.dropWhile p with ht
  have h1 : s.takeWhile p ++ t = s := List.takeWhile_append_dropWhile ..
  have h2 : List.rdropWhile p t ++ List.rtakeWhile p t = t :=
    rdropWhile_append_rtakeWhile p t
  have ha : s.takeWhile p = List.replicate (s.takeWhile p).length c := by
    apply List.eq_replicate_of_mem
    intro b hb
    have hpb := List.mem_takeWhile_imp hb
    exact of_decide_eq_true hpb
  have hb : List.rtakeWhile p t = List.replicate (List.rtakeWhile p t).length c := by
    apply List.eq_replicate_of_mem
    intro b hb
    rw [List.rtakeWhile, List.mem_reverse] at hb
    have hpb := List.mem_takeWhile_imp hb
    exact of_decide_eq_true hpb
  refine ⟨(s.takeWhile p).length, (List.rtakeWhile p t).length, ?_⟩
  have hs : stripChar c s = List.rdropWhile p t := rfl
  rw [hs, ← ha, ← hb, List.append_assoc, h2, h1]

theorem stripChar_head_ne (c : Char) (s : Str) (x : Char)
    (h : (stripChar c s).head? = some x) : x ≠ c := by
  set p : Char → Bool := fun x => decide (x = c) with hp
  set t : Str := s.dropWhile p with ht
  have hs : stripChar c s = List.rdropWhile p t := rfl
  rw [hs] at h
  obtain ⟨w, hw⟩ := List.rdropWhile_prefix p t
  have hht : t.head? = some x := by
    rw [← hw, List.head?_append, h, Option.or_some]
  have hnot := List.head?_dropWhile_not p s
  rw [← ht, hht] at hnot
  exact of_decide_eq_false hnot

theorem stripChar_getLast_ne (c : Char) (s : Str) (x : Char)
    (h : (stripChar c s).getLast? = some x) : x ≠ c := by
  set p : Char → Bool := fun x => decide (x = c) with hp
  set t : Str := s.dropWhile p with ht
  have hs : stripChar c s = List.rdropWhile p t := rfl
  rw [hs, List.getLast?_eq_head?_reverse, List.rdropWhile,
      List.reverse_reverse] at h
  have hnot := List.head?_dropWhile_not p t.reverse
  rw [h] at hnot
  exact of_decide_eq_false hnot

theorem stripChar_cons_of_ne (c x : Char) (s : Str) (hx : ¬ x = c) :
    ∃ t, stripChar c (x :: s) = x :: t := by
  set p : Char → Bool := fun y => decide (y = c) with hp
  have hpx : ¬ p x := by simp [hp, hx]
  have hd : (x :: s).dropWhile p = x :: s := List.dropWhile_cons_of_neg hpx
  have hs : stripChar c (x :: s) = List.rdropWhile p (x :: s) := by
    rw [stripChar, stripP_eq, hd]
  have hne : List.rdropWhile p (x :: s) ≠ [] := by
    rw [Ne, List.rdropWhile_eq_nil_iff]
    push_neg
    exact ⟨x, List.mem_cons_self _ _, hpx⟩
  obtain ⟨w, hw⟩ := List.rdropWhile_prefix p (x :: s)
  rcases he : List.rdropWhile p (x :: s) with _ | ⟨y, ys⟩
  · exact absurd he hne
  · rw [he, List.cons_append] at hw
    injection hw with h1 h2
    exact ⟨ys, by rw [hs, he, h1]⟩

theorem stripQuotes_cons_ws (x : Char) (s : Str) (hx : isPySpace x = true) :
    ∃ t, stripQuotes (x :: s) = x :: t := by
  have hcases : x = Char.ofNat 32 ∨ x = Char.ofNat 9 ∨ x = Char.ofNat 10 ∨
      x = Char.ofNat 13 ∨ x = Char.ofNat 11 ∨ x = Char.ofNat 12 := by
    simpa [isPySpace, or_assoc] using hx
  have hd : ¬ x = dquote := by
    rcases hcases with h | h | h | h | h | h <;> subst h <;> decide
  have hq : ¬ x = squote := by
    rcases hcases with h | h | h | h | h | h <;> subst h <;> decide
  obtain ⟨t1, h1⟩ := stripChar_cons_of_ne dquote x s hd
  obtain ⟨t2, h2⟩ := stripChar_cons_of_ne squote x t1 hq
  exact ⟨t2, by rw [stripQuotes, h1, h2]⟩

/-! ## Parser lemmas -/

theorem parseRaw_eq_some (raw k v : Str) (h : parseRaw raw = some (k, v)) :
    k = (pyStrip raw).takeWhile (fun c => c ≠ Char.ofNat 61) ∧
    v = stripQuotes (((pyStrip raw).dropWhile (fun c => c ≠ Char.ofNat 61)).tail) := by
  simp only [parseRaw] at h
  split_ifs at h
  rw [Option.some.injEq, Prod.mk.injEq] at h
  exact ⟨h.1.symm, h.2.symm⟩

theorem parseRaw_split (raw k rest : Str)
    (hline : pyStrip raw = k ++ Char.ofNat 61 :: rest)
    (hkeq : ∀ x ∈ k, ¬ x = Char.ofNat 61)
    (hhash : k.head? ≠ some (Char.ofNat 35)) :
    parseRaw raw = some (k, stripQuotes rest) := by
  have hne : (k ++ Char.ofNat 61 :: rest).isEmpty = false := by
    cases k <;> rfl
  have hstart : pyStartsWith [Char.ofNat 35] (k ++ Char.ofNat 61 :: rest) = false := by
    cases k with
    | nil =>
      have hb : (Char.ofNat 35 == Char.ofNat 61) = false := by decide
      simp [pyStartsWith, List.isPrefixOf, hb]
    | cons a k2 =>
      have ha : ¬ a = Char.ofNat 35 := by
        intro hh
        exact hhash (by rw [List.head?_cons, hh])
      have hb : (Char.ofNat 35 == a) = false :=
        beq_eq_false_iff_ne.mpr (fun hh => ha hh.symm)
      simp [pyStartsWith, List.isPrefixOf, hb]
  have hmem : Char.ofNat 61 ∈ k ++ Char.ofNat 61 :: rest :=
    List.mem_append_right _ (List.mem_cons_self _ _)
  have hall : ∀ a ∈ k, (fun c => decide (¬ c = Char.ofNat 61)) a = true :=
    fun a ha => decide_eq_true (hkeq a ha)
  have hpeq : (fun c => decide (¬ c = Char.ofNat 61)) (Char.ofNat 61) = false := by
    decide
  have htake : (k ++ Char.ofNat 61 :: rest).takeWhile
      (fun c => decide (¬ c = Char.ofNat 61)) = k := by
    rw [List.takeWhile_append_of_pos hall, List.takeWhile_cons_of_neg (by simp),
        List.append_nil]
  have hdrop : (k ++ Char.ofNat 61 :: rest).dropWhile
      (fun c => decide (¬ c = Char.ofNat 61)) = Char.ofNat 61 :: rest := by
    rw [List.dropWhile_append_of_pos hall, List.dropWhile_cons_of_neg (by simp)]
  simp only [parseRaw, hline, hne, Bool.false_eq_true, if_false, hstart,
      if_pos hmem, htake, hdrop, List.tail_cons]

/-! ## Claim theorems -/

/-- C3, counterexample: the parser does NOT strip exactly one layer of
matching quotes.  On the line `JWT_SECRET="abc` the single unmatched
leading double quote is removed (claim predicts it is preserved), and on
`K=""abc""` both nested layers are removed (claim predicts only one). -/
theorem parse_C3_counterexample :
    parseRaw "JWT_SECRET=\"abc".data = some ("JWT_SECRET".data, "abc".data) ∧
    "abc".data ≠ "\"abc".data ∧
    parseRaw "K=\"\"abc\"\"".data = some ("K".data, "abc".data) ∧
    "abc".data ≠ "\"abc\"".data := by
  refine ⟨by decide, by decide, by decide, by decide⟩

/-- C3, amended: for every line split on the first `=`, the parser strips
ALL leading and trailing double quotes from the value, then ALL leading
and trailing single quotes, matched or not: the raw value decomposes as
double quotes around a core `mid` that neither starts nor ends with a
double quote, and `mid` as single quotes around the final value `v`,
which neither starts nor ends with a single quote. -/
theorem parse_C3_amended (raw k v : Str) (h : parseRaw raw = some (k, v)) :
    ∃ (a b c d : Nat) (mid : Str),
      ((pyStrip raw).dropWhile (fun c => c ≠ Char.ofNat 61)).tail
          = List.replicate a dquote ++ mid ++ List.replicate b dquote ∧
      mid = List.replicate c squote ++ v ++ List.replicate d squote ∧
      (∀ x, mid.head? = some x → x ≠ dquote) ∧
      (∀ x, mid.getLast? = some x → x ≠ dquote) ∧
      (∀ x, v.head? = some x → x ≠ squote) ∧
      (∀ x, v.getLast? = some x → x ≠ squote) := by
  obtain ⟨-, hv⟩ := parseRaw_eq_some raw k v h
  set rawv : Str := ((pyStrip raw).dropWhile (fun c => c ≠ Char.ofNat 61)).tail with hrawv
  obtain ⟨a, b, hab⟩ := stripChar_decomp dquote rawv
  obtain ⟨c, d, hcd⟩ := stripChar_decomp squote (stripChar dquote rawv)
  refine ⟨a, b, c, d, stripChar dquote rawv, hab, ?_, ?_, ?_, ?_, ?_⟩
  · rw [hv, stripQuotes]
    exact hcd
  · exact fun x hx => stripChar_head_ne dquote rawv x hx
  · exact fun x hx => stripChar_getLast_ne dquote rawv x hx
  · intro x hx
    rw [hv, stripQuotes] at hx
    exact stripChar_head_ne squote (stripChar dquote rawv) x hx
  · intro x hx
    rw [hv, stripQuotes] at hx
    exact stripChar_getLast_ne squote (stripChar dquote rawv) x hx

/-- C3 witness: the amended theorem applied to the concrete line `K="x"`. -/
theorem parse_C3_amended_witness :
    ∃ (a b c d : Nat) (mid : Str),
      ((pyStrip "K=\"x\"".data).dropWhile (fun c => c ≠ Char.ofNat 61)).tail
          = List.replicate a dquote ++ mid ++ List.replicate b dquote ∧
      mid = List.replicate c squote ++ "x".data ++ List.replicate d squote ∧
      (∀ x, mid.head? = some x → x ≠ dquote) ∧
      (∀ x, mid.getLast? = some x → x ≠ dquote) ∧
      (∀ x, ("x".data : Str).head? = some x → x ≠ squote) ∧
      (∀ x, ("x".data : Str).getLast? = some x → x ≠ squote) :=
  parse_C3_amended "K=\"x\"".data "K".data "x".data (by decide)

theorem keepKey_iff (important : List Str) (k : Str) :
    keepKey important k = true ↔ (k ∈ important ∨ ∃ p ∈ apiPrefixes, p <+: k) := by
  rw [keepKey]
  by_cases h : k ∈ important
  · simp [h]
  · rw [if_neg h]
    simp only [List.any_eq_true, pyStartsWith]
    constructor
    · rintro ⟨p, hp, hpk⟩
      exact Or.inr ⟨p, hp, List.isPrefixOf_iff_prefix.mp hpk⟩
    · rintro (hk | ⟨p, hp, hpk⟩)
      · exact absurd hk h
      · exact ⟨p, hp, List.isPrefixOf_iff_prefix.mpr hpk⟩

/-- C5: an entry of the parsed mapping is retained by the allow-list filter
iff its key exactly equals a member of the important-keys list or starts
with one of the configured API prefixes; keys matching neither are
excluded. -/
theorem filter_C5 (important lines : List Str) (k v : Str) :
    (k, v) ∈ filteredSecrets important (buildSecrets lines) ↔
      ((k, v) ∈ buildSecrets lines ∧
        (k ∈ important ∨ ∃ p ∈ apiPrefixes, p <+: k)) := by
  rw [filteredSecrets_eq_filter _ _ (nodup_keys_buildSecrets lines),
      List.mem_filter]
  exact and_congr_right fun _ => keepKey_iff important k

/-- C1, counterexample: the two variants do NOT retain the same records.
`DATABASE_URL` is in the manual variant's important keys but not the
remote variant's, so on the file `DATABASE_URL=postgres123` the manual
variant keeps the record and the remote variant keeps nothing. -/
theorem variants_C1_counterexample :
    filteredUpload ["DATABASE_URL=postgres123".data]
        = [("DATABASE_URL".data, "postgres123".data)] ∧
    filteredPush ["DATABASE_URL=postgres123".data] = [] := by
  refine ⟨by decide, by decide⟩

/-- C1, amended: parser, placeholder filter and API-prefix list are shared,
but the important-keys lists differ, so the remote variant's retained set
is only contained in the manual variant's; any record the manual variant
keeps and the remote variant drops owes that to the extra important keys
of the manual variant. -/
theorem variants_C1_amended (lines : List Str) (r : Str × Str) :
    (r ∈ filteredPush lines → r ∈ filteredUpload lines) ∧
    (r ∈ filteredUpload lines → r ∉ filteredPush lines →
      r.1 ∈ importantKeysUpload ∧ r.1 ∉ importantKeysPush) := by
  obtain ⟨k, v⟩ := r
  constructor
  · intro h
    rw [filteredPush, filter_C5] at h
    rw [filteredUpload, filter_C5]
    obtain ⟨hmem, hcase⟩ := h
    refine ⟨hmem, ?_⟩
    rcases hcase with hk | hpref
    · left
      rw [importantKeysPush, List.mem_singleton] at hk
      subst hk
      decide
    · exact Or.inr hpref
  · intro hU hnP
    rw [filteredUpload, filter_C5] at hU
    rw [filteredPush, filter_C5] at hnP
    push_neg at hnP
    obtain ⟨hmem, hcase⟩ := hU
    have hn := hnP hmem
    push_neg at hn
    rcases hcase with hk | hpref
    · exact ⟨hk, hn.1⟩
    · obtain ⟨p, hp, hpk⟩ := hpref
      exact absurd hpk (hn.2 p hp)

/-- C1 witness: a record retained by the remote variant is retained by the
manual variant, at the concrete file `JWT_SECRET=abcdef123`. -/
theorem variants_C1_amended_witness :
    ("JWT_SECRET".data, "abcdef123".data) ∈
      filteredUpload ["JWT_SECRET=abcdef123".data] :=
  (variants_C1_amended ["JWT_SECRET=abcdef123".data]
    ("JWT_SECRET".data, "abcdef123".data)).1 (by decide)

/-- C2, counterexample: the line `GROQ_API_KEY_1="sk_live_abc123xyz789"` is
retained, but its masked form is NOT `sk_liv...9789`: the last four
characters of the value are `z789`, not `9789`. -/
theorem mask_C2_counterexample :
    filteredPush ["GROQ_API_KEY_1=\"sk_live_abc123xyz789\"".data]
        = [("GROQ_API_KEY_1".data, "sk_live_abc123xyz789".data)] ∧
    maskRemote "sk_live_abc123xyz789".data ≠ "sk_liv...9789".data := by
  refine ⟨by decide, by decide⟩

/-- C2, amended: the line `GROQ_API_KEY_1="sk_live_abc123xyz789"` is
retained by both variants' filters and, in the remote-call variant, its
value is displayed masked as `sk_liv...z789`. -/
theorem mask_C2_amended :
    filteredPush ["GROQ_API_KEY_1=\"sk_live_abc123xyz789\"".data]
        = [("GROQ_API_KEY_1".data, "sk_live_abc123xyz789".data)] ∧
    filteredUpload ["GROQ_API_KEY_1=\"sk_live_abc123xyz789\"".data]
        = [("GROQ_API_KEY_1".data, "sk_live_abc123xyz789".data)] ∧
    maskRemote "sk_live_abc123xyz789".data = "sk_liv...z789".data := by
  refine ⟨by decide, by decide, by decide⟩

/-- C10, counterexample: a `KEY = VALUE` line with whitespace around `=` is
NOT always excluded: the key `GROQ_API_KEY ` (trailing space) still starts
with the API prefix `GROQ_API_KEY`, so the line is retained by both
variants, key and value keeping their whitespace. -/
theorem parse_C10_counterexample :
    filteredPush ["GROQ_API_KEY = secretvalue".data]
        = [("GROQ_API_KEY ".data, " secretvalue".data)] ∧
    filteredUpload ["GROQ_API_KEY = secretvalue".data]
        = [("GROQ_API_KEY ".data, " secretvalue".data)] := by
  refine ⟨by decide, by decide⟩

theorem lastSpace_not_mem (k : Str) (c : Char) (hlast : k.getLast? = some c)
    (hsp : isPySpace c = true) (ks : List Str)
    (hks : ks.all (fun s => s.getLast?.all (fun d => !isPySpace d)) = true) :
    k ∉ ks := by
  intro hmem
  rw [List.all_eq_true] at hks
  have h2 := hks k hmem
  rw [hlast] at h2
  simp only [Option.all_some, Bool.not_eq_true'] at h2
  rw [hsp] at h2
  cases h2

/-- C10, amended: on a `KEY = VALUE` line only the whole line is trimmed,
not the split halves — the parser returns the key with its trailing
whitespace and the value with its leading whitespace (quote-stripping
cannot remove a leading space).  Such a key never exactly equals an
important key of either variant, but it CAN still start with an API
prefix, so the allow-list decision reduces exactly to the prefix test. -/
theorem parse_C10_amended (raw k rest : Str) (c : Char)
    (hline : pyStrip raw = k ++ Char.ofNat 61 :: rest)
    (hkeq : ∀ x ∈ k, ¬ x = Char.ofNat 61)
    (hhash : k.head? ≠ some (Char.ofNat 35))
    (hlast : k.getLast? = some c) (hsp : isPySpace c = true) :
    parseRaw raw = some (k, stripQuotes rest) ∧
    k ∉ importantKeysPush ∧ k ∉ importantKeysUpload ∧
    keepKey importantKeysPush k = apiPrefixes.any (fun p => pyStartsWith p k) ∧
    keepKey importantKeysUpload k = apiPrefixes.any (fun p => pyStartsWith p k) ∧
    (∀ x s2, rest = x :: s2 → isPySpace x = true →
      ∃ t, stripQuotes rest = x :: t) := by
  have hnP : k ∉ importantKeysPush :=
    lastSpace_not_mem k c hlast hsp importantKeysPush (by decide)
  have hnU : k ∉ importantKeysUpload :=
    lastSpace_not_mem k c hlast hsp importantKeysUpload (by decide)
  refine ⟨parseRaw_split raw k rest hline hkeq hhash, hnP, hnU, ?_, ?_, ?_⟩
  · rw [keepKey, if_neg hnP]
  · rw [keepKey, if_neg hnU]
  · intro x s2 hrest hx
    subst hrest
    exact stripQuotes_cons_ws x s2 hx

/-- C10 witness: the amended theorem at the concrete line
`GROQ_API_KEY = x` (key `GROQ_API_KEY ` with trailing space, value ` x`
with leading space). -/
theorem parse_C10_amended_witness :
    parseRaw "GROQ_API_KEY = x".data
        = some ("GROQ_API_KEY ".data, stripQuotes " x".data) ∧
    "GROQ_API_KEY ".data ∉ importantKeysPush ∧
    "GROQ_API_KEY ".data ∉ importantKeysUpload ∧
    keepKey importantKeysPush "GROQ_API_KEY ".data
        = apiPrefixes.any (fun p => pyStartsWith p "GROQ_API_KEY ".data) ∧
    keepKey importantKeysUpload "GROQ_API_KEY ".data
        = apiPrefixes.any (fun p => pyStartsWith p "GROQ_API_KEY ".data) ∧
    (∀ x s2, " x".data = x :: s2 → isPySpace x = true →
      ∃ t, stripQuotes " x".data = x :: t) :=
  parse_C10_amended "GROQ_API_KEY = x".data "GROQ_API_KEY ".data " x".data
    (Char.ofNat 32) (by decide) (by decide) (by decide) (by decide) (by decide)

/-- C6: a parsed line whose (quote-stripped) value is empty or starts with
`your` or `sk_test` contributes nothing to the mapping, regardless of its
key; in particular `JWT_SECRET=your-secret-here` is excluded even though
`JWT_SECRET` is in both variants' important keys. -/
theorem placeholder_C6 :
    (∀ (raw k v : Str) (acc : List (Str × Str)), parseRaw raw = some (k, v) →
        (v = [] ∨ pyStartsWith "your".data v = true ∨
          pyStartsWith "sk_test".data v = true) →
        buildStep acc raw = acc) ∧
    buildSecrets ["JWT_SECRET=your-secret-here".data] = [] ∧
    "JWT_SECRET".data ∈ importantKeysPush ∧
    "JWT_SECRET".data ∈ importantKeysUpload := by
  refine ⟨?_, by decide, by decide, by decide⟩
  intro raw k v acc hp hbad
  have hok : placeholderOk v = false := by
    rcases hbad with h | h | h
    · subst h; decide
    · simp [placeholderOk, h]
    · simp [placeholderOk, h]
  simp only [buildStep, entryOf, hp, hok, Bool.false_eq_true, if_false]

/-- C6 witness: the placeholder rule applied to the concrete line
`JWT_SECRET=your-secret-here`. -/
theorem placeholder_C6_witness :
    buildStep [] "JWT_SECRET=your-secret-here".data = [] :=
  placeholder_C6.1 "JWT_SECRET=your-secret-here".data "JWT_SECRET".data
    "your-secret-here".data [] (by decide) (Or.inr (Or.inl (by decide)))

theorem mask_take_drop_decomp (n : Nat) (v : Str) (h : n + 4 ≤ v.length) :
    ∃ p m s, v = p ++ m ++ s ∧ p.length = n ∧ s.length = 4 ∧
      p = v.take n ∧ s = v.drop (v.length - 4) := by
  refine ⟨v.take n, (v.drop n).take (v.length - (n + 4)),
    v.drop (v.length - 4), ?_, ?_, ?_, rfl, rfl⟩
  · have h1 : v.take n ++ v.drop n = v := List.take_append_drop ..
    have h2 : (v.drop n).take (v.length - (n + 4)) ++
        (v.drop n).drop (v.length - (n + 4)) = v.drop n := List.take_append_drop ..
    have h3 : (v.drop n).drop (v.length - (n + 4)) = v.drop (v.length - 4) := by
      rw [List.drop_drop]
      congr 1
      omega
    rw [List.append_assoc, ← h3, h2, h1]
  · rw [List.length_take]; omega
  · rw [List.length_drop]; omega

/-- C4: the masking formulas of both variants.  Remote variant: a value of
length over 14 is displayed as its first 6 characters, `...`, and its last
4 characters; otherwise as its first 4 characters and `...`.  Manual
variant: the same with thresholds 16 and 8. -/
theorem mask_C4 (v : Str) :
    (14 < v.length → ∃ p m s, v = p ++ m ++ s ∧ p.length = 6 ∧ s.length = 4 ∧
        maskRemote v = p ++ "...".data ++ s) ∧
    (v.length ≤ 14 → ∃ p m, v = p ++ m ∧ p.length = min 4 v.length ∧
        maskRemote v = p ++ "...".data) ∧
    (16 < v.length → ∃ p m s, v = p ++ m ++ s ∧ p.length = 8 ∧ s.length = 4 ∧
        maskManual v = p ++ "...".data ++ s) ∧
    (v.length ≤ 16 → ∃ p m, v = p ++ m ∧ p.length = min 4 v.length ∧
        maskManual v = p ++ "...".data) := by
  refine ⟨?_, ?_, ?_, ?_⟩
  · intro h
    obtain ⟨p, m, s, hv, hp, hs, hpe, hse⟩ := mask_take_drop_decomp 6 v (by omega)
    exact ⟨p, m, s, hv, hp, hs, by rw [maskRemote, if_pos h, ← hpe, ← hse]⟩
  · intro h
    refine ⟨v.take 4, v.drop 4, (List.take_append_drop ..).symm, ?_, ?_⟩
    · rw [List.length_take]
    · rw [maskRemote, if_neg (by omega)]
  · intro h
    obtain ⟨p, m, s, hv, hp, hs, hpe, hse⟩ := mask_take_drop_decomp 8 v (by omega)
    exact ⟨p, m, s, hv, hp, hs, by rw [maskManual, if_pos h, ← hpe, ← hse]⟩
  · intro h
    refine ⟨v.take 4, v.drop 4, (List.take_append_drop ..).symm, ?_, ?_⟩
    · rw [List.length_take]
    · rw [maskManual, if_neg (by omega)]

/-- C4 witness: the remote-variant long-value branch at the concrete
20-character value `sk_live_abc123xyz789`. -/
theorem mask_C4_witness :
    ∃ p m s, "sk_live_abc123xyz789".data = p ++ m ++ s ∧ p.length = 6 ∧
      s.length = 4 ∧
      maskRemote "sk_live_abc123xyz789".data = p ++ "...".data ++ s :=
  (mask_C4 "sk_live_abc123xyz789".data).1 (by decide)

/-- C7: in the remote-call variant, with `HF_TOKEN` absent from the
environment and an interactive input that strips to empty, the run exits
with status 1, performs zero remote calls and prints no per-key lines. -/
theorem token_C7 (lines : List Str) (promptInput : Str)
    (call : Str → Str → Option Str) (h : pyStrip promptInput = []) :
    runPush lines none promptInput call =
      { exitCode := 1, calls := [], successCount := 0, failCount := 0,
        outputLines := [] } := by
  rw [runPush]
  simp [h]

/-- C7 witness: the empty-token exit at a whitespace-only interactive
input. -/
theorem token_C7_witness :
    runPush [] none "   ".data (fun _ _ => none) =
      { exitCode := 1, calls := [], successCount := 0, failCount := 0,
        outputLines := [] } :=
  token_C7 [] "   ".data (fun _ _ => none) (by decide)

theorem countP_none_add_some (call : Str → Str → Option Str)
    (items : List (Str × Str)) :
    items.countP (fun kv => (call kv.1 kv.2).isNone) +
      items.countP (fun kv => (call kv.1 kv.2).isSome) = items.length := by
  induction items with
  | nil => rfl
  | cons kv rest ih =>
    rw [List.countP_cons, List.countP_cons, List.length_cons]
    rcases h : call kv.1 kv.2 with _ | e <;> simp [h] <;> omega

theorem uploadLoop_spec (call : Str → Str → Option Str)
    (items : List (Str × Str)) : ∀ acc,
    items.foldl (uploadStep call) acc =
      (acc.1 + items.countP (fun kv => (call kv.1 kv.2).isNone),
       acc.2.1 + items.countP (fun kv => (call kv.1 kv.2).isSome),
       acc.2.2 ++ items.map (fun kv =>
         match call kv.1 kv.2 with
         | none => okLine kv.1 kv.2
         | some e => failLine kv.1 e)) := by
  induction items with
  | nil => intro acc; simp
  | cons kv rest ih =>
    intro acc
    rw [List.foldl_cons, ih]
    rcases h : call kv.1 kv.2 with _ | e <;>
      simp only [uploadStep, h, List.countP_cons, List.map_cons] <;>
      refine Prod.ext ?_ (Prod.ext ?_ ?_) <;>
      simp [h, List.append_assoc] <;> omega

/-- C8: the upload loop processes every retained record even when calls
fail — success and failure counters partition the batch, one output line
is produced per record, a failure line carries the error truncated to its
first 50 characters, and the final summary for one failure among three
keys reports 2 secrets, 1 failed. -/
theorem upload_C8 (call : Str → Str → Option Str) (items : List (Str × Str)) :
    (uploadLoop call items).1
        = items.countP (fun kv => (call kv.1 kv.2).isNone) ∧
    (uploadLoop call items).2.1
        = items.countP (fun kv => (call kv.1 kv.2).isSome) ∧
    (uploadLoop call items).1 + (uploadLoop call items).2.1 = items.length ∧
    (uploadLoop call items).2.2 = items.map (fun kv =>
        match call kv.1 kv.2 with
        | none => okLine kv.1 kv.2
        | some e => failLine kv.1 e) ∧
    (∀ k e, ∃ t, failLine k e = "❌ ".data ++ k ++ ": Failed - ".data ++ t ∧
        t.length ≤ 50 ∧ t <+: e) ∧
    uploadLoop scenarioCall scenarioItems =
      (2, 1,
       [okLine "GROQ_API_KEY_1".data "sk_live_abc123xyz789".data,
        failLine "GROQ_API_KEY_2".data
          "Connection error: remote endpoint refused the request after handshake".data,
        okLine "JWT_SECRET".data "supersecretjwtvalue1".data]) ∧
    summaryLine 2 1 = "\nDone! Uploaded 2 secrets, 1 failed.".data := by
  have hs := uploadLoop_spec call items (0, 0, [])
  refine ⟨?_, ?_, ?_, ?_, ?_, by decide, by decide⟩
  · rw [uploadLoop, hs]
    simp
  · rw [uploadLoop, hs]
    simp
  · rw [uploadLoop, hs]
    simpa using countP_none_add_some call items
  · rw [uploadLoop, hs]
    simp
  · intro k e
    exact ⟨e.take 50, rfl,
      by rw [List.length_take]; exact min_le_left _ _,
      List.take_prefix _ _⟩

/-- C9: keys of the parsed mapping are unique, and the value stored under a
key is the one from the last placeholder-passing `KEY=VALUE` line with
that key, in file order. -/
theorem dict_C9 (lines : List Str) (key : Str) :
    (keys (buildSecrets lines)).Nodup ∧
    lookup (buildSecrets lines) key =
      ((lines.filterMap entryOf).filter
          (fun kv => kv.1 == key)).getLast?.map Prod.snd := by
  refine ⟨nodup_keys_buildSecrets lines, ?_⟩
  rw [buildSecrets, build_eq_entries_fold, lookup_entries_fold]
  rcases hx : ((lines.filterMap entryOf).filter
      (fun kv => kv.1 == key)).getLast?.map Prod.snd with _ | v
  · rw [hx]; rfl
  · rw [hx]; rfl

end BaatCheet
